import Mathlib

/-!
Shallow embedding of the pinecone-doubtpucho ingestion and search routes.

The two source files are `src/app/api/migrate-to/route.js` (bulk ingestion
of question records into a Pinecone index) and the search route (query
validation, filter building, top-K vector query).  External collaborators
(the embedding model and the vector store) are parameters of the embedded
functions; everything else is translated directly from the JavaScript.
-/

namespace DoubtPucho

/-- A JSON value as it can appear in the id fields of a source record
(`doc._id` / `doc.id`), covering every JSON shape: null, booleans,
numbers, strings, objects and arrays.  A non-array object is modelled up
to its `$oid` property, which (as in a MongoDB export) is an optional
string; `none` at the record-field level stands for an absent key, i.e.
`undefined`. -/
inductive JsVal where
  | null
  | bool (b : Bool)
  | num (n : Int)
  | str (s : String)
  | obj (oid : Option String)
  | arr (elems : List JsVal)
  deriving Repr

/-- JavaScript truthiness of a `JsVal`, as tested by `if (v)`.  Objects
and arrays (the empty array included) are always truthy. -/
def jsTruthy : JsVal → Bool
  | .null => false
  | .bool b => b
  | .num n => n != 0
  | .str s => s != ""
  | .obj _ => true
  | .arr _ => true

/-- Whether the value is a JSON array. -/
def JsVal.isArr : JsVal → Bool
  | .arr _ => true
  | _ => false

mutual

/-- JavaScript `String(v)` conversion for the values of `JsVal`.  An array
converts via `Array.prototype.toString`, i.e. `join(",")`, in which `null`
(and `undefined`) elements become empty strings and the other elements
convert recursively — so `String([])` is the empty string. -/
def jsToString : JsVal → String
  | .null => "null"
  | .bool b => if b then "true" else "false"
  | .num n => toString n
  | .str s => s
  | .obj _ => "[object Object]"
  | .arr elems => jsArrJoin elems

/-- `elems.join(",")` with JavaScript element conversion. -/
def jsArrJoin : List JsVal → String
  | [] => ""
  | [.null] => ""
  | [v] => jsToString v
  | .null :: rest => "," ++ jsArrJoin rest
  | v :: rest => jsToString v ++ "," ++ jsArrJoin rest

end

/-- A source record as read from the questions JSON.  Text and metadata
fields are modelled as optional strings (`none` = absent key); the two id
fields carry arbitrary JSON values since the route inspects their shape. -/
structure SourceRecord where
  _id : Option JsVal
  id : Option JsVal
  cleanedQuestion : Option String
  question : Option String
  subject : Option String
  topic : Option String
  course : Option String
  deriving Repr

/-- Whether an optional id field does not hold a JSON array. -/
def notArrOpt : Option JsVal → Bool
  | some v => !v.isArr
  | none => true

/-- Whether neither id field of the record holds a JSON array.  Relevant
because a truthy array id is accepted by the id chain and stringified by
`join(",")`, which can be empty (`String([])` is `""`). -/
def noArrayIds (doc : SourceRecord) : Bool :=
  notArrOpt doc._id && notArrOpt doc.id

/-- `doc.id` used as a scalar id: `else if (doc.id) docId = String(doc.id)`. -/
def scalarIdOf : Option JsVal → Option String
  | some v => if jsTruthy v then some (jsToString v) else none
  | none => none

/-- Id extraction of the ingestion loop:
`if (doc._id && typeof doc._id === "object" && doc._id.$oid) docId = doc._id.$oid;
else if (doc._id) docId = String(doc._id);
else if (doc.id) docId = String(doc.id);`
`none` means every branch failed (the skip branch is reached). -/
def deriveId (doc : SourceRecord) : Option String :=
  match doc._id with
  | some (.obj (some s)) =>
      if s != "" then some s else some "[object Object]"
  | some (.obj none) => some "[object Object]"
  | some v =>
      if jsTruthy v then some (jsToString v) else scalarIdOf doc.id
  | none => scalarIdOf doc.id

/-- Value of the JS expression `doc._id || doc.id` (`none` = `undefined`). -/
def idOrFallback (doc : SourceRecord) : Option JsVal :=
  match doc._id with
  | some v => if jsTruthy v then some v else doc.id
  | none => doc.id

/-- Outcome of the id-extraction region of the loop body.  When no id is
derived the code evaluates the warning argument
`JSON.stringify(doc._id || doc.id).substring(0, 100)`; if `doc._id || doc.id`
is `undefined`, `JSON.stringify` returns `undefined` and the `.substring`
call raises a `TypeError`, which the per-record `catch` converts into an
`errors` increment — the `skippedCount++` on the following line is never
reached for such a record. -/
inductive IdStep where
  | derived (docId : String)
  | skipLogged
  | warnThrows
  deriving DecidableEq, Repr

/-- Evaluate the id-extraction region on one record (see `IdStep`). -/
def idStep (doc : SourceRecord) : IdStep :=
  match deriveId doc with
  | some s => .derived s
  | none =>
    match idOrFallback doc with
    | some _ => .skipLogged
    | none => .warnThrows

/-- `const textForEmbedding = doc.cleanedQuestion || doc.question;` followed
by the `if (!textForEmbedding)` skip: the first truthy of the two fields,
`none` when neither is present and non-empty. -/
def textFor (doc : SourceRecord) : Option String :=
  match doc.cleanedQuestion with
  | some s =>
      if s != "" then some s
      else
        match doc.question with
        | some q => if q != "" then some q else none
        | none => none
  | none =>
    match doc.question with
    | some q => if q != "" then some q else none
    | none => none

/-- Whitespace class of the JS regex `\s` restricted to the ASCII
whitespace characters (also the characters trimmed by `String.trim`). -/
def isWs (c : Char) : Bool :=
  c = ' ' || c = '\t' || c = '\n' || c = '\r' || c = '\x0b' || c = '\x0c'

/-- State machine for the global replace of `/<[^>]*>/` by `""`: outside a
candidate tag (`acc = none`) a `<` opens one; inside (`acc = some cs`, the
pending characters in reverse) a `>` discards the whole candidate.  A `<`
never followed by a `>` matches nothing — and then no later `<` can match
either, since no `>` occurs after it — so a pending candidate at the end of
the input is emitted literally. -/
def removeTagsAux : List Char → Option (List Char) → List Char
  | [], none => []
  | [], some acc => acc.reverse
  | c :: rest, none =>
      if c = '<' then removeTagsAux rest (some [c])
      else c :: removeTagsAux rest none
  | c :: rest, some acc =>
      if c = '>' then removeTagsAux rest none
      else removeTagsAux rest (some (c :: acc))

/-- `text.replace(/<[^>]*>/g, "")` on a character list. -/
def removeTags (l : List Char) : List Char := removeTagsAux l none

/-- Worker for `replace(/\s+/g, " ")`: the flag records whether the
previous character belonged to a whitespace run already emitted as one space. -/
def collapseWsAux : List Char → Bool → List Char
  | [], _ => []
  | c :: rest, prevWs =>
      if isWs c then
        if prevWs then collapseWsAux rest true
        else ' ' :: collapseWsAux rest true
      else c :: collapseWsAux rest false

/-- `text.replace(/\s+/g, " ")` on a character list. -/
def collapseWs (l : List Char) : List Char := collapseWsAux l false

/-- `String.prototype.trim` on a character list. -/
def trimWs (l : List Char) : List Char :=
  ((l.dropWhile isWs).reverse.dropWhile isWs).reverse

/-- The normalization pipeline of `getEmbedding`:
`text.replace(/<[^>]*>/g, "").replace(/\s+/g, " ").trim()`. -/
def cleanText (s : String) : String :=
  String.mk (trimWs (collapseWs (removeTags s.data)))

/-- Failures of `getEmbedding`: the explicit
`throw new Error("Text too short after cleaning")`, or an error raised by
the underlying model invocation. -/
inductive EmbedError where
  | textTooShort
  | modelFailure
  deriving DecidableEq, Repr

/-- `getEmbedding(text)`, parametrized by the external embedding model
(`model c` is `embedder(c, {pooling:"mean", normalize:true})`, which may
fail).  The guard is `if (!cleanText || cleanText.length < 3) throw ...`. -/
def getEmbedding {V : Type} (model : String → Except Unit V) (text : String) :
    Except EmbedError V :=
  let c := cleanText text
  if c = "" || c.length < 3 then .error .textTooShort
  else
    match model c with
    | .ok v => .ok v
    | .error _ => .error .modelFailure

/-- The metadata object attached to every upserted vector. -/
structure VectorMetadata where
  subject : String
  topic : String
  course : String
  cleanedQuestion : String
  deriving DecidableEq, Repr

/-- A record upserted into the vector store; `V` abstracts the numeric
vector produced by the embedding model. -/
structure VectorRecord (V : Type) where
  id : String
  values : V
  metadata : VectorMetadata
  deriving DecidableEq, Repr

/-- `doc.field || "unknown"` for the three categorical metadata fields. -/
def orUnknown : Option String → String
  | some s => if s != "" then s else "unknown"
  | none => "unknown"

/-- The metadata snippet
`(doc.cleanedQuestion || doc.question).replace(/<[^>]*>/g, "").substring(0, 500)`,
applied to the already-selected embedding text. -/
def metaSnippet (text : String) : String :=
  String.mk ((removeTags text.data).take 500)

/-- Build the vector pushed onto the batch for an accepted record. -/
def mkVector {V : Type} (docId : String) (v : V) (doc : SourceRecord)
    (text : String) : VectorRecord V :=
  ⟨docId, v,
    ⟨orUnknown doc.subject, orUnknown doc.topic, orUnknown doc.course,
      metaSnippet text⟩⟩

/-- Mutable state of the ingestion loop.  Besides the source's `batch` and
the three counters, the embedding keeps an audit trail: the batches
successfully upserted so far, the number of upsert calls attempted, the
number of mid-loop upsert calls that failed (and were absorbed by the
per-record `catch`), and the number of `getEmbedding` invocations. -/
structure IngestState (V : Type) where
  batch : List (VectorRecord V)
  processed : Nat
  errors : Nat
  skipped : Nat
  upserts : List (List (VectorRecord V))
  upsertCalls : Nat
  midFailures : Nat
  embedCalls : Nat
  deriving DecidableEq, Repr

/-- The loop state before the first record. -/
def initState (V : Type) : IngestState V := ⟨[], 0, 0, 0, [], 0, 0, 0⟩

/-- One iteration of `for (const doc of questions)`.  The whole body runs
inside `try { ... } catch { errorCount++; continue; }`, so every failure
inside the body — a `TypeError` from the skip-branch warning, a
`getEmbedding` throw, or a failed mid-loop `index.upsert(batch)` — lands in
`errors` and the loop continues.  A failed mid-loop upsert leaves the batch
uncleared (the `batch = []` assignment follows the `await`).  `upsertOk n`
tells whether the `n`-th upsert call of the run (0-based) succeeds. -/
def stepDoc {V : Type} (model : String → Except Unit V) (upsertOk : Nat → Bool)
    (batchSize : Nat) (st : IngestState V) (doc : SourceRecord) :
    IngestState V :=
  match idStep doc with
  | .warnThrows => { st with errors := st.errors + 1 }
  | .skipLogged => { st with skipped := st.skipped + 1 }
  | .derived docId =>
    match textFor doc with
    | none => { st with skipped := st.skipped + 1 }
    | some text =>
      match getEmbedding model text with
      | .error _ =>
          { st with errors := st.errors + 1, embedCalls := st.embedCalls + 1 }
      | .ok v =>
        let batch1 := st.batch ++ [mkVector docId v doc text]
        let st1 := { st with batch := batch1, processed := st.processed + 1,
                             embedCalls := st.embedCalls + 1 }
        if batchSize ≤ batch1.length then
          if upsertOk st1.upsertCalls then
            { st1 with batch := [], upserts := st1.upserts ++ [batch1],
                       upsertCalls := st1.upsertCalls + 1 }
          else
            { st1 with errors := st1.errors + 1,
                       upsertCalls := st1.upsertCalls + 1,
                       midFailures := st1.midFailures + 1 }
        else st1

/-- `questions.slice(0, limit)`: JavaScript `Array.prototype.slice` with a
possibly negative end index (a negative index counts from the end). -/
def jsSlice {α : Type} (qs : List α) (endIdx : Int) : List α :=
  if 0 ≤ endIdx then qs.take endIdx.toNat
  else qs.take ((qs.length : Int) + endIdx).toNat

/-- `if (limit) { questions = questions.slice(0, limit); }` — the slice is
applied only when `limit` is truthy (`none` models an absent or null
limit, `some 0` the falsy number zero). -/
def applyLimit {α : Type} (limit : Option Int) (qs : List α) : List α :=
  match limit with
  | none => qs
  | some l => if l = 0 then qs else jsSlice qs l

/-- The stats object of the success response. -/
structure IngestStats where
  totalDocuments : Nat
  totalProcessed : Nat
  errors : Nat
  skipped : Nat
  finalBatchSize : Nat
  deriving DecidableEq, Repr

/-- Final loop state of a run: fold the loop body over the (possibly
truncated) question list. -/
def runIngestState {V : Type} (model : String → Except Unit V)
    (upsertOk : Nat → Bool) (batchSize : Nat) (limit : Option Int)
    (questions : List SourceRecord) : IngestState V :=
  (applyLimit limit questions).foldl (stepDoc model upsertOk batchSize)
    (initState V)

/-- The stats object assembled from the final loop state:
`totalDocuments` is `questions.length` after truncation and
`finalBatchSize` is `batch.length` at response time (the final flush does
not clear `batch`). -/
def ingestStats {V : Type} (fin : IngestState V) (total : Nat) : IngestStats :=
  ⟨total, fin.processed, fin.errors, fin.skipped, fin.batch.length⟩

/-- The whole `POST` run of the migration route after the questions are
loaded: truncate, loop, flush the remaining batch, and answer.  Only a
failure of the final `index.upsert(batch)` (which sits outside the loop's
`try`) reaches the outer `catch` and produces the error response,
modelled as `.error ()`: the run succeeds iff the remaining batch is empty
(no final upsert happens) or its upsert succeeds. -/
def runIngest {V : Type} (model : String → Except Unit V)
    (upsertOk : Nat → Bool) (batchSize : Nat) (limit : Option Int)
    (questions : List SourceRecord) : Except Unit IngestStats :=
  if (runIngestState model upsertOk batchSize limit questions).batch.isEmpty
      || upsertOk (runIngestState model upsertOk batchSize limit
            questions).upsertCalls then
    .ok (ingestStats (runIngestState model upsertOk batchSize limit questions)
          (applyLimit limit questions).length)
  else .error ()

/-- `String.prototype.trim` on a string. -/
def trimStr (s : String) : String := String.mk (trimWs s.data)

/-- The metadata filter object assembled by the search route; each field is
`some v` exactly when the route executed `filter.field = v`. -/
structure QueryFilter where
  subject : Option String
  topic : Option String
  course : Option String
  deriving DecidableEq, Repr

/-- `if (x) filter.field = x` — keep the value only when truthy
(present and non-empty). -/
def truthyField : Option String → Option String
  | some s => if s != "" then some s else none
  | none => none

/-- `const filter = \x7b\x7d; if (subject) ...; if (topic) ...; if (course) ...`. -/
def buildFilter (subject topic course : Option String) : QueryFilter :=
  ⟨truthyField subject, truthyField topic, truthyField course⟩

/-- The filter object with no keys. -/
def emptyFilter : QueryFilter := ⟨none, none, none⟩

/-- `Object.keys(filter).length > 0 ? filter : undefined` — the argument
actually passed to `index.query`. -/
def filterArg (f : QueryFilter) : Option QueryFilter :=
  if f = emptyFilter then none else some f

/-- The success payload of the search route:
`\x7b success, matches, total, searchQuery, filters \x7d`
(`filters` echoes the assembled filter object, keys and all). -/
structure SearchSuccess (M : Type) where
  «matches» : List M
  total : Nat
  searchQuery : String
  filters : QueryFilter
  deriving DecidableEq, Repr

/-- Outcome of a search request: the 400 "Query is required" response, the
500 response of the outer `catch`, or the success payload. -/
inductive SearchOutcome (M : Type) where
  | invalidQuery
  | serverError
  | ok (resp : SearchSuccess M)
  deriving DecidableEq, Repr

/-- A search run together with its observable calls to the collaborators:
whether `getEmbedding` was invoked, and the `(topK, filter)` argument of the
`index.query` call when one was made. -/
structure SearchTrace (M : Type) where
  outcome : SearchOutcome M
  embedCalled : Bool
  storeCall : Option (Nat × Option QueryFilter)
  deriving DecidableEq, Repr

/-- The query-validation guard
`if (!query || query.trim().length === 0)` (`none` models an absent
`query` field). -/
def queryInvalid : Option String → Bool
  | none => true
  | some q => q = "" || (trimStr q).length = 0

/-- The `POST` handler of the search route, parametrized by the embedding
model and the vector store (`store v topK filter` is
`index.query(\x7bvector: v, topK, filter, includeMetadata: true\x7d).matches`).
`topK?` is the raw request field; the destructuring default makes it 10
when absent. -/
def searchPOST {V M : Type} (model : String → Except Unit V)
    (store : V → Nat → Option QueryFilter → List M)
    (query : Option String) (subject topic course : Option String)
    (topK? : Option Nat) : SearchTrace M :=
  if queryInvalid query then ⟨.invalidQuery, false, none⟩
  else
    match query with
    | none => ⟨.invalidQuery, false, none⟩
    | some q =>
      match getEmbedding model q with
      | .error _ => ⟨.serverError, true, none⟩
      | .ok v =>
        let topK := topK?.getD 10
        let filter := buildFilter subject topic course
        let ms := store v topK (filterArg filter)
        ⟨.ok ⟨ms, ms.length, q, filter⟩, true, some (topK, filterArg filter)⟩

/-- The ids of every batched and every upserted vector are non-empty. -/
def batchIdsOk {V : Type} (st : IngestState V) : Prop :=
  (∀ v ∈ st.batch, v.id ≠ "") ∧ ∀ b ∈ st.upserts, ∀ v ∈ b, v.id ≠ ""

lemma length_le_toDigitsCore (b : Nat) :
    ∀ (f n : Nat) (ds : List Char),
      ds.length ≤ (Nat.toDigitsCore b f n ds).length := by
  intro f
  induction f with
  | zero => intro n ds; exact Nat.le_refl _
  | succ f ih =>
    intro n ds
    simp only [Nat.toDigitsCore]
    split
    · exact Nat.le_succ _
    · have h2 := ih (n / b) ((n % b).digitChar :: ds)
      simp only [List.length_cons] at h2
      omega

lemma toDigits_ne_nil (b n : Nat) : Nat.toDigits b n ≠ [] := by
  intro h
  have h1 : 1 ≤ (Nat.toDigits b n).length := by
    show 1 ≤ (Nat.toDigitsCore b (n + 1) n []).length
    simp only [Nat.toDigitsCore]
    split
    · exact Nat.le_refl _
    · simpa using length_le_toDigitsCore b n (n / b) [Nat.digitChar (n % b)]
  rw [h] at h1
  exact absurd h1 (by simp)

lemma natRepr_ne_empty (n : Nat) : Nat.repr n ≠ "" := by
  intro h
  have hd : Nat.toDigits 10 n = [] := by
    simpa [Nat.repr, List.asString] using congrArg String.data h
  exact toDigits_ne_nil 10 n hd

lemma intToString_ne_empty (n : Int) : toString n ≠ "" := by
  cases n with
  | ofNat m => exact natRepr_ne_empty m
  | negSucc m =>
    intro h
    have h2 : ("-" ++ Nat.repr (m + 1)) = "" := h
    have h3 := congrArg String.length h2
    rw [String.length_append] at h3
    have h4 : 1 + (Nat.repr (m + 1)).length = 0 := h3
    omega

lemma jsToString_ne_empty (v : JsVal) (ht : jsTruthy v = true)
    (ha : v.isArr = false) : jsToString v ≠ "" := by
  cases v with
  | null => simp [jsTruthy] at ht
  | bool b =>
    cases b with
    | false => simp [jsTruthy] at ht
    | true => simp [jsToString]
  | num n => exact intToString_ne_empty n
  | str s => simpa [jsTruthy, jsToString] using ht
  | obj oid => simp [jsToString]
  | arr elems => simp [JsVal.isArr] at ha

lemma scalarIdOf_ne_empty (o : Option JsVal) (s : String)
    (ha : notArrOpt o = true) (h : scalarIdOf o = some s) : s ≠ "" := by
  cases o with
  | none => simp [scalarIdOf] at h
  | some v =>
    simp only [notArrOpt] at ha
    simp only [scalarIdOf] at h
    split at h
    · cases h
      exact jsToString_ne_empty v (by assumption) (by simpa using ha)
    · cases h

lemma deriveId_ne_empty (doc : SourceRecord) (s : String)
    (hna : noArrayIds doc = true) (h : deriveId doc = some s) : s ≠ "" := by
  unfold noArrayIds at hna
  rw [Bool.and_eq_true] at hna
  obtain ⟨hna1, hna2⟩ := hna
  unfold deriveId at h
  cases hid : doc._id with
  | none =>
    rw [hid] at h
    exact scalarIdOf_ne_empty doc.id s hna2 h
  | some v =>
    rw [hid] at h
    rw [hid] at hna1
    cases v with
    | null =>
      replace h : scalarIdOf doc.id = some s := h
      exact scalarIdOf_ne_empty doc.id s hna2 h
    | bool b =>
      cases b with
      | false =>
        replace h : scalarIdOf doc.id = some s := h
        exact scalarIdOf_ne_empty doc.id s hna2 h
      | true =>
        replace h : some "true" = some s := h
        injection h with h2
        subst h2
        decide
    | num n =>
      replace h : (if (n != 0) = true then some (toString n)
          else scalarIdOf doc.id) = some s := h
      split at h
      · injection h with h2
        subst h2
        exact intToString_ne_empty n
      · exact scalarIdOf_ne_empty doc.id s hna2 h
    | str t =>
      replace h : (if (t != "") = true then some t
          else scalarIdOf doc.id) = some s := h
      split at h
      · injection h with h2
        subst h2
        simpa using (by assumption : (t != "") = true)
      · exact scalarIdOf_ne_empty doc.id s hna2 h
    | obj oid =>
      cases oid with
      | none =>
        replace h : some "[object Object]" = some s := h
        injection h with h2
        subst h2
        decide
      | some x =>
        replace h : (if (x != "") = true then some x
            else some "[object Object]") = some s := h
        split at h
        · injection h with h2
          subst h2
          simpa using (by assumption : (x != "") = true)
        · injection h with h2
          subst h2
          decide
    | arr elems => simp [notArrOpt, JsVal.isArr] at hna1

lemma idStep_derived (doc : SourceRecord) (s : String)
    (h : idStep doc = .derived s) : deriveId doc = some s := by
  unfold idStep at h
  cases hd : deriveId doc with
  | some t => simp_all
  | none => cases ho : idOrFallback doc <;> simp_all

lemma trimWs_eq_nil_iff (l : List Char) :
    trimWs l = [] ↔ l.all isWs = true := by
  unfold trimWs
  constructor
  · intro h
    have h1 : (l.dropWhile isWs).reverse.dropWhile isWs = [] :=
      List.reverse_eq_nil_iff.1 h
    have h2 := List.dropWhile_eq_nil_iff.1 h1
    have h3 : ∀ x ∈ l.dropWhile isWs, isWs x := fun x hx =>
      h2 x (List.mem_reverse.2 hx)
    rw [List.all_eq_true]
    intro x hx
    rw [← List.takeWhile_append_dropWhile (p := isWs) (l := l)] at hx
    rcases List.mem_append.1 hx with hx | hx
    · exact List.mem_takeWhile_imp hx
    · exact h3 x hx
  · intro h
    have : l.dropWhile isWs = [] :=
      List.dropWhile_eq_nil_iff.2 fun x hx => List.all_eq_true.1 h x hx
    simp [this]

lemma stepDoc_count {V : Type} (model : String → Except Unit V)
    (upsertOk : Nat → Bool) (bs : Nat) (st : IngestState V)
    (doc : SourceRecord) :
    (stepDoc model upsertOk bs st doc).processed
        + (stepDoc model upsertOk bs st doc).errors
        + (stepDoc model upsertOk bs st doc).skipped
        + st.midFailures
      = st.processed + st.errors + st.skipped + 1
        + (stepDoc model upsertOk bs st doc).midFailures := by
  unfold stepDoc
  cases idStep doc with
  | warnThrows => simp; omega
  | skipLogged => simp; omega
  | derived docId =>
    cases textFor doc with
    | none => simp; omega
    | some text =>
      rcases he : getEmbedding model text with e | v
      · simp [he]; omega
      · simp only [he]
        split
        · split
          · simp; omega
          · simp; omega
        · simp; omega

lemma foldl_count {V : Type} (model : String → Except Unit V)
    (upsertOk : Nat → Bool) (bs : Nat) :
    ∀ (l : List SourceRecord) (st : IngestState V),
      (l.foldl (stepDoc model upsertOk bs) st).processed
          + (l.foldl (stepDoc model upsertOk bs) st).errors
          + (l.foldl (stepDoc model upsertOk bs) st).skipped
          + st.midFailures
        = st.processed + st.errors + st.skipped + l.length
          + (l.foldl (stepDoc model upsertOk bs) st).midFailures := by
  intro l
  induction l with
  | nil => intro st; simp
  | cons d l ih =>
    intro st
    simp only [List.foldl_cons, List.length_cons]
    have h1 := stepDoc_count model upsertOk bs st d
    have h2 := ih (stepDoc model upsertOk bs st d)
    omega

lemma stepDoc_midFailures {V : Type} (model : String → Except Unit V)
    (upsertOk : Nat → Bool) (bs : Nat) (hok : ∀ n, upsertOk n = true)
    (st : IngestState V) (doc : SourceRecord) :
    (stepDoc model upsertOk bs st doc).midFailures = st.midFailures := by
  unfold stepDoc
  cases idStep doc with
  | warnThrows => simp
  | skipLogged => simp
  | derived docId =>
    cases textFor doc with
    | none => simp
    | some text =>
      rcases he : getEmbedding model text with e | v
      · simp [he]
      · simp only [he]
        split
        · split
          · simp
          · simp_all
        · simp

lemma foldl_midFailures {V : Type} (model : String → Except Unit V)
    (upsertOk : Nat → Bool) (bs : Nat) (hok : ∀ n, upsertOk n = true) :
    ∀ (l : List SourceRecord) (st : IngestState V),
      (l.foldl (stepDoc model upsertOk bs) st).midFailures = st.midFailures := by
  intro l
  induction l with
  | nil => intro st; rfl
  | cons d l ih =>
    intro st
    simp only [List.foldl_cons]
    rw [ih, stepDoc_midFailures model upsertOk bs hok]

lemma stepDoc_idsOk {V : Type} (model : String → Except Unit V)
    (upsertOk : Nat → Bool) (bs : Nat) (st : IngestState V)
    (doc : SourceRecord) (hna : noArrayIds doc = true) (h : batchIdsOk st) :
    batchIdsOk (stepDoc model upsertOk bs st doc) := by
  obtain ⟨h1, h2⟩ := h
  unfold stepDoc
  cases hid : idStep doc with
  | warnThrows => exact ⟨h1, h2⟩
  | skipLogged => exact ⟨h1, h2⟩
  | derived docId =>
    have hne : docId ≠ "" :=
      deriveId_ne_empty doc docId hna (idStep_derived doc docId hid)
    cases textFor doc with
    | none => exact ⟨h1, h2⟩
    | some text =>
      rcases he : getEmbedding model text with e | v
      · simp only [he]
        exact ⟨h1, h2⟩
      · have hbatch : ∀ w ∈ st.batch ++ [mkVector docId v doc text], w.id ≠ "" := by
          intro w hw
          rcases List.mem_append.1 hw with hw | hw
          · exact h1 w hw
          · rw [List.mem_singleton.1 hw]
            exact hne
        simp only [he]
        split
        · split
          · refine ⟨by simp, ?_⟩
            intro b hb
            rcases List.mem_append.1 hb with hb | hb
            · exact h2 b hb
            · rw [List.mem_singleton.1 hb]
              exact hbatch
          · exact ⟨hbatch, h2⟩
        · exact ⟨hbatch, h2⟩

lemma foldl_idsOk {V : Type} (model : String → Except Unit V)
    (upsertOk : Nat → Bool) (bs : Nat) :
    ∀ (l : List SourceRecord) (st : IngestState V),
      (∀ doc ∈ l, noArrayIds doc = true) →
      batchIdsOk st → batchIdsOk (l.foldl (stepDoc model upsertOk bs) st) := by
  intro l
  induction l with
  | nil => intro st _ h; exact h
  | cons d l ih =>
    intro st hnas h
    exact ih _ (fun doc hd => hnas doc (List.mem_cons_of_mem d hd))
      (stepDoc_idsOk model upsertOk bs st d (hnas d (List.mem_cons_self d l)) h)

lemma applyLimit_subset {α : Type} (lim : Option Int) (qs : List α) :
    ∀ a ∈ applyLimit lim qs, a ∈ qs := by
  intro a ha
  cases lim with
  | none => exact ha
  | some l =>
    by_cases hl : l = 0
    · simpa [applyLimit, hl] using ha
    · have ha2 : a ∈ jsSlice qs l := by simpa [applyLimit, hl] using ha
      unfold jsSlice at ha2
      split at ha2 <;> exact List.take_subset _ _ ha2

/-- A deterministic stand-in for the embedding model, mapping a cleaned
text to its length. -/
def model0 : String → Except Unit Nat := fun s => .ok s.length

/-- A vector store stand-in whose query always returns one match. -/
def store0 : Nat → Nat → Option QueryFilter → List Nat := fun _ _ _ => [7]

/-- An upsert oracle: the first call of the run fails, later calls succeed. -/
def upsertFail0 : Nat → Bool := fun n => decide (n ≠ 0)

/-- An upsert oracle all of whose calls fail. -/
def upsertNone : Nat → Bool := fun _ => false

/-- An upsert oracle all of whose calls succeed. -/
def upsertAll : Nat → Bool := fun _ => true

/-- A well-formed record: `\x7b"_id": "a", "cleanedQuestion": "abcd"\x7d`. -/
def d1 : SourceRecord := ⟨some (.str "a"), none, some "abcd", none, none, none, none⟩

/-- A well-formed record: `\x7b"_id": "b", "cleanedQuestion": "efgh"\x7d`. -/
def d2 : SourceRecord := ⟨some (.str "b"), none, some "efgh", none, none, none, none⟩

/-- A record whose text is below the length floor:
`\x7b"_id": "c", "cleanedQuestion": "x"\x7d`. -/
def dShort : SourceRecord := ⟨some (.str "c"), none, some "x", none, none, none, none⟩

/-- A record with neither id key: `\x7b"cleanedQuestion": "valid question"\x7d`. -/
def dNoId : SourceRecord := ⟨none, none, some "valid question", none, none, none, none⟩

/-- A record whose `_id` is an empty JSON array:
`\x7b"_id": [], "cleanedQuestion": "abcd"\x7d`.  `[]` is truthy and of
`typeof` "object" with no `$oid`, so the chain takes
`docId = String(doc._id)`, and `String([])` is the empty string. -/
def dArrId : SourceRecord := ⟨some (.arr []), none, some "abcd", none, none, none, none⟩

/-- C1, counterexample: with `batchSize = 1` and an upsert oracle whose
first call fails, ingesting two well-formed records returns a success
response whose stats satisfy `processed + errors + skipped = 3` while
`totalDocuments = 2`: the record that triggered the failed mid-loop flush
is counted in both `processed` and `errors`. -/
theorem c1_sum_violated_on_mid_loop_upsert_failure :
    runIngest model0 upsertFail0 1 none [d1, d2]
        = .ok ⟨2, 2, 1, 0, 0⟩
      ∧ 2 + 1 + 0 ≠ 2 := ⟨rfl, by decide⟩

/-- C1, amended: after any ingestion run that returns a success response,
`processed + errors + skipped = totalDocuments + M`, where `M` is the
number of mid-loop batch upserts that failed during the run (each such
failure is caught by the per-record handler and double-counts its record
in both `processed` and `errors`).  When every upsert succeeds, `M = 0`
and the original equality holds. -/
theorem c1_counters_sum_amended {V : Type} (model : String → Except Unit V)
    (upsertOk : Nat → Bool) (bs : Nat) (lim : Option Int)
    (qs : List SourceRecord) (stats : IngestStats)
    (hok : runIngest model upsertOk bs lim qs = .ok stats) :
    stats.totalProcessed + stats.errors + stats.skipped
      = stats.totalDocuments
        + (runIngestState model upsertOk bs lim qs).midFailures := by
  have hc := foldl_count model upsertOk bs (applyLimit lim qs) (initState V)
  rw [show (initState V).processed = 0 from rfl,
      show (initState V).errors = 0 from rfl,
      show (initState V).skipped = 0 from rfl,
      show (initState V).midFailures = 0 from rfl] at hc
  unfold runIngest at hok
  split at hok
  · injection hok with h2
    subst h2
    simp only [ingestStats, runIngestState]
    omega
  · cases hok

/-- C1, witness for the amended theorem at a concrete run in which every
upsert succeeds. -/
theorem c1_counters_sum_amended_witness :
    (2 : Nat) + 0 + 0
      = 2 + (runIngestState model0 upsertAll 2 none [d1, d2]).midFailures :=
  c1_counters_sum_amended model0 upsertAll 2 none [d1, d2] ⟨2, 2, 0, 0, 0⟩ rfl

/-- C2, code bug: a record with neither id key reaches the skip branch,
but evaluating the warning argument
`JSON.stringify(doc._id || doc.id).substring(0, 100)` throws a `TypeError`
(`JSON.stringify(undefined)` is `undefined`), which the per-record `catch`
converts into an `errors` increment: the record is counted in `errors`,
not in `skipped` — against the claim and against the code's own
"Skipping document" message.  It is still never embedded. -/
theorem c2_missing_both_ids_counted_as_error :
    idStep dNoId = .warnThrows
      ∧ stepDoc model0 upsertAll 50 (initState Nat) dNoId
          = { initState Nat with errors := 1 }
      ∧ (stepDoc model0 upsertAll 50 (initState Nat) dNoId).skipped = 0
      ∧ (stepDoc model0 upsertAll 50 (initState Nat) dNoId).embedCalls = 0 :=
  ⟨rfl, rfl, rfl, rfl⟩

/-- C3, counterexample: with `batchSize = 1` and an upsert oracle whose
first call fails, a mid-loop batch upsert failure occurs
(`midFailures = 1`), yet the run returns a success response and the
subsequent record is still processed (`processed = 2`): a failed mid-loop
flush does not terminate the run. -/
theorem c3_mid_loop_upsert_failure_does_not_abort :
    (runIngestState model0 upsertFail0 1 none [d1, d2]).midFailures = 1
      ∧ runIngest model0 upsertFail0 1 none [d1, d2] = .ok ⟨2, 2, 1, 0, 0⟩
      ∧ (runIngestState model0 upsertFail0 1 none [d1, d2]).processed = 2 :=
  ⟨rfl, rfl, rfl⟩

/-- C3, amended: only a failure of the final remainder flush terminates
the run with an error response (with no retry); a failed mid-loop flush is
caught by the per-record error handler, which increments `errors`, keeps
the batch (with its new vector) uncleared, and lets processing continue
with the next record. -/
theorem c3_upsert_failure_amended {V : Type} (model : String → Except Unit V)
    (upsertOk : Nat → Bool) (bs : Nat) (lim : Option Int)
    (qs : List SourceRecord) :
    (¬ (runIngestState model upsertOk bs lim qs).batch = [] →
        upsertOk (runIngestState model upsertOk bs lim qs).upsertCalls = false →
        runIngest model upsertOk bs lim qs = .error ())
      ∧ ∀ (st : IngestState V) (doc : SourceRecord) (docId text : String)
          (v : V),
          idStep doc = .derived docId →
          textFor doc = some text →
          getEmbedding model text = .ok v →
          bs ≤ (st.batch ++ [mkVector docId v doc text]).length →
          upsertOk st.upsertCalls = false →
          stepDoc model upsertOk bs st doc
            = { st with
                  batch := st.batch ++ [mkVector docId v doc text],
                  processed := st.processed + 1,
                  errors := st.errors + 1,
                  upsertCalls := st.upsertCalls + 1,
                  midFailures := st.midFailures + 1,
                  embedCalls := st.embedCalls + 1 } := by
  constructor
  · intro hb hf
    unfold runIngest
    rw [if_neg]
    simp [List.isEmpty_iff, hb, hf]
  · intro st doc docId text v hid htext hemb hlen hfail
    unfold stepDoc
    simp only [hid, htext, hemb]
    rw [if_pos hlen, if_neg (by simp [hfail])]

/-- C3, witness for the amended theorem: a run whose final remainder flush
fails returns the error response. -/
theorem c3_upsert_failure_amended_witness :
    runIngest model0 upsertNone 50 none [d1] = .error () :=
  (c3_upsert_failure_amended model0 upsertNone 50 none [d1]).1 (by decide) rfl

/-- C4: when `getEmbedding` fails on a record (`TextTooShort` or a model
failure), the per-record handler increments `errors` (the embedding was
attempted: `embedCalls` grows) and the fold continues over the remaining
records from that state — the run is not aborted. -/
theorem c4_embed_failure_increments_errors_and_continues {V : Type}
    (model : String → Except Unit V) (upsertOk : Nat → Bool) (bs : Nat)
    (st : IngestState V) (doc : SourceRecord) (rest : List SourceRecord)
    (docId text : String) (e : EmbedError)
    (hid : idStep doc = .derived docId) (htext : textFor doc = some text)
    (hemb : getEmbedding model text = .error e) :
    List.foldl (stepDoc model upsertOk bs) st (doc :: rest)
      = List.foldl (stepDoc model upsertOk bs)
          { st with errors := st.errors + 1, embedCalls := st.embedCalls + 1 }
          rest := by
  simp only [List.foldl_cons]
  congr 1
  unfold stepDoc
  simp only [hid, htext, hemb]

/-- C4, witness: a run whose first record's text is below the length floor
continues with the second record from an errors-incremented state. -/
theorem c4_embed_failure_witness :
    List.foldl (stepDoc model0 upsertFail0 50) (initState Nat) [dShort, d1]
      = List.foldl (stepDoc model0 upsertFail0 50)
          { initState Nat with errors := 1, embedCalls := 1 } [d1] :=
  c4_embed_failure_increments_errors_and_continues model0 upsertFail0 50
    (initState Nat) dShort [d1] "c" "x" .textTooShort rfl rfl rfl

lemma getEmbedding_eq {V : Type} (model : String → Except Unit V)
    (text : String) :
    getEmbedding model text =
      if (cleanText text).length < 3 then .error .textTooShort
      else
        match model (cleanText text) with
        | .ok v => .ok v
        | .error _ => .error .modelFailure := by
  unfold getEmbedding
  by_cases hc : cleanText text = ""
  · rw [hc]
    simp
  · by_cases hlen : (cleanText text).length < 3 <;> simp [hc, hlen]

lemma truthyField_eq_none (o : Option String) :
    truthyField o = none ↔ o.getD "" = "" := by
  cases o with
  | none => simp [truthyField]
  | some a => by_cases ha : a = "" <;> simp [truthyField, ha]

lemma truthyField_eq_some (o : Option String) (x : String) :
    truthyField o = some x ↔ o = some x ∧ x ≠ "" := by
  cases o with
  | none => simp [truthyField]
  | some a =>
    simp only [truthyField]
    split
    · rename_i hb
      have ha : a ≠ "" := by simpa using hb
      simp only [Option.some_inj]
      exact ⟨fun he => ⟨he, he ▸ ha⟩, fun hp => hp.1⟩
    · rename_i hb
      have ha : a = "" := by simpa using hb
      subst ha
      simp
      exact fun h => h.symm

/-- C5: a search request whose query text is absent, empty or
whitespace-only is answered with the 400 `invalidQuery` response before
`getEmbedding` is invoked and before any vector-store call is made. -/
theorem c5_invalid_query_rejected_before_any_call {V M : Type}
    (model : String → Except Unit V)
    (store : V → Nat → Option QueryFilter → List M)
    (q? : Option String) (s t c : Option String) (topK? : Option Nat)
    (h : ∀ q ∈ q?, q.data.all isWs = true) :
    searchPOST model store q? s t c topK? = ⟨.invalidQuery, false, none⟩ := by
  have hq : queryInvalid q? = true := by
    cases q? with
    | none => rfl
    | some q =>
      have hall := h q (by simp)
      have hnil : trimWs q.data = [] := (trimWs_eq_nil_iff q.data).2 hall
      simp [queryInvalid, trimStr, hnil, String.length]
  unfold searchPOST
  rw [if_pos hq]

/-- C5, witness at a whitespace-only query. -/
theorem c5_invalid_query_witness :
    searchPOST model0 store0 (some "   ") none none none none
      = ⟨.invalidQuery, false, none⟩ :=
  c5_invalid_query_rejected_before_any_call model0 store0 (some "   ")
    none none none none (fun q hq => by simp at hq; subst hq; decide)

/-- C6: on a successful search, the store is queried under
`filterArg (buildFilter subject topic course)`; the built filter holds an
equality term for a field exactly when that field is present and non-empty
in the request, and when none of the three is, the argument passed to the
store is `none` (`undefined`) rather than the empty filter object. -/
theorem c6_filter_terms_exactly_nonempty_fields {V M : Type}
    (model : String → Except Unit V)
    (store : V → Nat → Option QueryFilter → List M)
    (q : String) (s t c : Option String) (topK? : Option Nat) (v : V)
    (hq : queryInvalid (some q) = false)
    (hv : getEmbedding model q = .ok v) :
    (searchPOST model store (some q) s t c topK?).storeCall
        = some (topK?.getD 10, filterArg (buildFilter s t c))
      ∧ (∀ x, (buildFilter s t c).subject = some x ↔ s = some x ∧ x ≠ "")
      ∧ (∀ x, (buildFilter s t c).topic = some x ↔ t = some x ∧ x ≠ "")
      ∧ (∀ x, (buildFilter s t c).course = some x ↔ c = some x ∧ x ≠ "")
      ∧ (filterArg (buildFilter s t c) = none ↔
          s.getD "" = "" ∧ t.getD "" = "" ∧ c.getD "" = "") := by
  refine ⟨?_, fun x => truthyField_eq_some s x, fun x => truthyField_eq_some t x,
    fun x => truthyField_eq_some c x, ?_⟩
  · unfold searchPOST
    rw [if_neg (by simp [hq])]
    simp only [hv]
  · have hiff : filterArg (buildFilter s t c) = none ↔
        buildFilter s t c = emptyFilter := by
      unfold filterArg
      split <;> simp_all
    rw [hiff]
    unfold buildFilter emptyFilter
    rw [QueryFilter.mk.injEq, truthyField_eq_none, truthyField_eq_none,
        truthyField_eq_none]

/-- C6, witness: a query with `subject = "Math"` and no other filters
passes exactly `\x7bsubject: "Math"\x7d` to the store. -/
theorem c6_filter_witness :
    (searchPOST model0 store0 (some "algebra") (some "Math") none none
        none).storeCall
      = some (10, some ⟨some "Math", none, none⟩) :=
  (c6_filter_terms_exactly_nonempty_fields model0 store0 "algebra"
    (some "Math") none none none 7 rfl rfl).1

/-- C7: `getEmbedding` fails with `textTooShort` exactly when the
normalized text (tags removed, whitespace collapsed, trimmed) is shorter
than 3 characters (the empty string included); otherwise the model is
invoked on the normalized text and its answer is returned (a model error
surfacing as `modelFailure`). -/
theorem c7_text_too_short_iff_clean_below_floor {V : Type}
    (model : String → Except Unit V) (text : String) :
    (getEmbedding model text = .error .textTooShort
        ↔ (cleanText text).length < 3)
      ∧ (3 ≤ (cleanText text).length →
          getEmbedding model text
            = match model (cleanText text) with
              | .ok v => .ok v
              | .error _ => .error .modelFailure) := by
  rw [getEmbedding_eq]
  by_cases hlen : (cleanText text).length < 3
  · rw [if_pos hlen]
    exact ⟨⟨fun _ => hlen, fun _ => rfl⟩, fun h3 => absurd hlen (by omega)⟩
  · rw [if_neg hlen]
    constructor
    · constructor
      · intro h
        exfalso
        rcases hm : model (cleanText text) with u | w <;> rw [hm] at h <;>
          simp at h
      · intro h
        exact absurd h hlen
    · intro _
      rfl

/-- C7, witness: a text that normalizes to a single character fails with
`textTooShort`. -/
theorem c7_text_too_short_witness :
    getEmbedding model0 "<p>a</p>" = .error .textTooShort :=
  (c7_text_too_short_iff_clean_below_floor model0 "<p>a</p>").1.mpr (by decide)

/-- C8: a successful search responds with the store's matches list as
returned (same list, same order), `total` equal to its length, the
original query text echoed, and the assembled filter object — the same
object whose `filterArg` image was passed to the store. -/
theorem c8_success_response_shape {V M : Type}
    (model : String → Except Unit V)
    (store : V → Nat → Option QueryFilter → List M)
    (q : String) (s t c : Option String) (topK? : Option Nat) (v : V)
    (hq : queryInvalid (some q) = false)
    (hv : getEmbedding model q = .ok v) :
    searchPOST model store (some q) s t c topK?
      = ⟨.ok ⟨store v (topK?.getD 10) (filterArg (buildFilter s t c)),
              (store v (topK?.getD 10) (filterArg (buildFilter s t c))).length,
              q, buildFilter s t c⟩,
          true, some (topK?.getD 10, filterArg (buildFilter s t c))⟩ := by
  unfold searchPOST
  rw [if_neg (by simp [hq])]
  simp only [hv]

/-- C8, witness at a concrete query with one filter term. -/
theorem c8_success_response_witness :
    searchPOST model0 store0 (some "algebra basics") none (some "calc") none
        (some 5)
      = ⟨.ok ⟨[7], 1, "algebra basics", ⟨none, some "calc", none⟩⟩,
          true, some (5, some ⟨none, some "calc", none⟩)⟩ :=
  c8_success_response_shape model0 store0 "algebra basics" none (some "calc")
    none (some 5) 14 rfl rfl

/-- C9, counterexample: a record whose `_id` is the (truthy) empty JSON
array is accepted by the id chain with `docId = String([]) = ""`, and the
resulting empty-id vector is batched and upserted — the code has no
non-emptiness guard. -/
theorem c9_empty_id_from_array_id_upserted :
    deriveId dArrId = some ""
      ∧ (runIngestState model0 upsertAll 1 none [dArrId]).upserts
          = [[⟨"", 4, ⟨"unknown", "unknown", "unknown", "abcd"⟩⟩]] :=
  ⟨rfl, rfl⟩

/-- C9, amended: every batched (and hence upserted) vector is keyed by the
deterministic output of the id-extraction chain, and this key is non-empty
whenever no record of the run carries a JSON array in an id field; an
array id is truthy and stringifies to its comma-join, which can be empty
(`String([])`, `String([null])`, `String([""])`), so such a record can
produce an empty id that is upserted unguarded. -/
theorem c9_upserted_ids_nonempty_amended {V : Type}
    (model : String → Except Unit V) (upsertOk : Nat → Bool) (bs : Nat)
    (lim : Option Int) (qs : List SourceRecord)
    (hna : ∀ doc ∈ qs, noArrayIds doc = true) :
    batchIdsOk (runIngestState model upsertOk bs lim qs) :=
  foldl_idsOk model upsertOk bs (applyLimit lim qs) (initState V)
    (fun doc hd => hna doc (applyLimit_subset lim qs doc hd))
    ⟨fun v hv => absurd hv (List.not_mem_nil v),
     fun b hb => absurd hb (List.not_mem_nil b)⟩

/-- C9, witness for the amended theorem at a concrete array-free run. -/
theorem c9_upserted_ids_nonempty_amended_witness :
    batchIdsOk (runIngestState model0 upsertAll 2 none [d1, d2]) :=
  c9_upserted_ids_nonempty_amended model0 upsertAll 2 none [d1, d2] (by decide)

/-- C10: a falsy `limit` (absent, null, or 0) applies no truncation at
all — the run folds over every record of the source, and a success
response reports `totalDocuments` equal to the full source length. -/
theorem c10_falsy_limit_means_no_truncation {V : Type}
    (model : String → Except Unit V) (upsertOk : Nat → Bool) (bs : Nat)
    (lim : Option Int) (qs : List SourceRecord)
    (h : lim = none ∨ lim = some 0) :
    applyLimit lim qs = qs
      ∧ runIngestState model upsertOk bs lim qs
          = qs.foldl (stepDoc model upsertOk bs) (initState V)
      ∧ ∀ stats, runIngest model upsertOk bs lim qs = .ok stats →
          stats.totalDocuments = qs.length := by
  have hl : applyLimit lim qs = qs := by
    rcases h with h | h <;> subst h <;> simp [applyLimit]
  refine ⟨hl, by rw [runIngestState, hl], ?_⟩
  intro stats hst
  unfold runIngest at hst
  split at hst
  · injection hst with h2
    subst h2
    simp [ingestStats, hl]
  · cases hst

/-- C10, witness at `limit = 0`. -/
theorem c10_falsy_limit_witness :
    applyLimit (some 0) [d1] = [d1] :=
  (c10_falsy_limit_means_no_truncation model0 upsertAll 50 (some 0) [d1]
    (Or.inr rfl)).1

end DoubtPucho
